import Mathlib

/-
Shallow embedding of greedSimulations.py, a two-player dice ("greed" / "pig")
strategy simulator.  Python integers are modelled as Nat or Int, Python floats
(only used for average margins and win rates) as rationals, the global random
source as an injected stream of die values, and the unbounded while loops of
the engine as fueled recursion returning Option (none = fuel exhausted).
Failing operations (list index out of range, division by zero) are modelled
with Option.
-/

/-- sumList from the source: sums a list of integers with a running total. -/
def sumList (sum_list : List Nat) : Nat :=
  sum_list.foldl (fun s v => s + v) 0

/-- sumList as applied to margin lists, which hold signed integers. -/
def sumListInt (sum_list : List Int) : Int :=
  sum_list.foldl (fun s v => s + v) 0

/-- A decision function as the engine calls it: arguments are winning score,
own banked score, opponent banked score, current roll sequence. -/
abbrev Decide := Nat → Nat → Nat → List Nat → Bool

/-- The pair returned by runSimulation: winner name and margin. -/
structure SimResult where
  winner : String
  margin : Int
deriving DecidableEq, Repr

/-- The inner turn loop of runSimulation (lines 208-224 / 231-246 of the
source): while banked score plus pending sum is below the winning score,
draw a roll; a roll of 1 discards the pending sequence and ends the turn;
otherwise the roll is appended and the strategy decides whether to go on.
Returns the final pending move list and the next unread stream position. -/
def runTurn (d : Decide) (ws score opp : Nat) (rolls : Nat → Nat) :
    Nat → Nat → List Nat → Option (List Nat × Nat)
  | 0, idx, moves =>
      if score + sumList moves < ws then none else some (moves, idx)
  | fuel + 1, idx, moves =>
      if score + sumList moves < ws then
        if rolls idx = 1 then some ([], idx + 1)
        else
          if d ws score opp (moves ++ [rolls idx]) then
            runTurn d ws score opp rolls fuel (idx + 1) (moves ++ [rolls idx])
          else some (moves ++ [rolls idx], idx + 1)
      else some (moves, idx)

/-- The outer game loop of runSimulation: strategy 1 takes a turn and banks,
the game ends if it reached the winning score, else strategy 2 does the same.
Returns both final banked scores and the next unread stream position. -/
def runGameLoop (d1 d2 : Decide) (ws : Nat) (rolls : Nat → Nat) :
    Nat → Nat → Nat → Nat → Option (Nat × Nat × Nat)
  | 0, _, _, _ => none
  | fuel + 1, idx, s1, s2 =>
      match runTurn d1 ws s1 s2 rolls (fuel + 1) idx [] with
      | none => none
      | some (m1, i1) =>
          if ws ≤ s1 + sumList m1 then some (s1 + sumList m1, s2, i1)
          else
            match runTurn d2 ws s2 (s1 + sumList m1) rolls (fuel + 1) i1 [] with
            | none => none
            | some (m2, i2) =>
                if ws ≤ s2 + sumList m2 then
                  some (s1 + sumList m1, s2 + sumList m2, i2)
                else
                  runGameLoop d1 d2 ws rolls fuel i2
                    (s1 + sumList m1) (s2 + sumList m2)

/-- runSimulation from the source: both scores start at 0, the game loop runs,
then the winner is the side whose score reached the winning score and the
margin is 100 minus the other side's final score (the constant 100 is
hardcoded in the source, independent of winning_score). -/
def runSimulation (n1 : String) (d1 : Decide) (n2 : String) (d2 : Decide)
    (winning_score : Nat) (rolls : Nat → Nat) (fuel idx : Nat) :
    Option (SimResult × Nat) :=
  match runGameLoop d1 d2 winning_score rolls fuel idx 0 0 with
  | none => none
  | some (s1, s2, i) =>
      if winning_score ≤ s1 then some (⟨n1, 100 - (s2 : Int)⟩, i)
      else some (⟨n2, 100 - (s1 : Int)⟩, i)

/-- game_settings block of a batch result record. -/
structure GameSettings where
  game_count : Int
  winning_score : Int
  strategy_1 : String
  strategy_2 : String
deriving DecidableEq, Repr

/-- The record produced by runSimulationBlock (win_count and win_margins hold
the first side at index 0, here the first component). -/
structure BatchResult where
  game_settings : GameSettings
  win_count : Int × Int
  win_margins : List Int × List Int
  average_margins : ℚ × ℚ
deriving DecidableEq, Repr

/-- The game loop of runSimulationBlock: play the requested number of games in
order, threading the roll stream position between games. -/
def runGamesLoop (n1 : String) (d1 : Decide) (n2 : String) (d2 : Decide)
    (winning_score : Nat) (rolls : Nat → Nat) (fuel : Nat) :
    Nat → Nat → Option (List SimResult × Nat)
  | 0, idx => some ([], idx)
  | g + 1, idx =>
      match runSimulation n1 d1 n2 d2 winning_score rolls fuel idx with
      | none => none
      | some (r, idx2) =>
          match runGamesLoop n1 d1 n2 d2 winning_score rolls fuel g idx2 with
          | none => none
          | some (rest, idx3) => some (r :: rest, idx3)

/-- Body of the tabulation loop of runSimulationBlock (lines 340-352): if the
recorded winner is the first strategy, its win counter goes up and its margin
list receives the margin while the other list receives the negated margin;
otherwise symmetrically. -/
def tabulateStep (name1 : String) (acc : (Int × Int) × (List Int × List Int))
    (r : SimResult) : (Int × Int) × (List Int × List Int) :=
  if r.winner = name1 then
    ((acc.1.1 + 1, acc.1.2), (acc.2.1 ++ [r.margin], acc.2.2 ++ [-r.margin]))
  else
    ((acc.1.1, acc.1.2 + 1), (acc.2.1 ++ [-r.margin], acc.2.2 ++ [r.margin]))

/-- The tabulation loop of runSimulationBlock over the per-game results. -/
def tabulate (name1 : String) (results_list : List SimResult) :
    (Int × Int) × (List Int × List Int) :=
  results_list.foldl (tabulateStep name1) ((0, 0), ([], []))

/-- runSimulationBlock from the source: run the games, tabulate win counts and
margin lists, then compute each average margin as sum divided by list length
(a Python ZeroDivisionError when a list is empty, modelled as none). -/
def runSimulationBlock (n1 : String) (d1 : Decide) (n2 : String) (d2 : Decide)
    (winning_score : Nat) (rolls : Nat → Nat) (fuel games idx : Nat) :
    Option (BatchResult × Nat) :=
  match runGamesLoop n1 d1 n2 d2 winning_score rolls fuel games idx with
  | none => none
  | some (results_list, idx2) =>
      if (tabulate n1 results_list).2.1.length = 0 then none
      else if (tabulate n1 results_list).2.2.length = 0 then none
      else
        some ({ game_settings :=
                  { game_count := (games : Int)
                    winning_score := (winning_score : Int)
                    strategy_1 := n1
                    strategy_2 := n2 }
                win_count := ((tabulate n1 results_list).1.1,
                              (tabulate n1 results_list).1.2)
                win_margins := ((tabulate n1 results_list).2.1,
                                (tabulate n1 results_list).2.2)
                average_margins :=
                  ((sumListInt (tabulate n1 results_list).2.1 : ℚ) /
                     ((tabulate n1 results_list).2.1.length : ℚ),
                   (sumListInt (tabulate n1 results_list).2.2 : ℚ) /
                     ((tabulate n1 results_list).2.2.length : ℚ)) }, idx2)

/-- wins and losses bucket of an aggregate record. -/
structure WinLoss where
  wins : Int
  losses : Int
deriving DecidableEq, Repr

/-- The overall / first / second win-loss buckets of an aggregate record. -/
structure WinLossRate where
  overall : WinLoss
  first : WinLoss
  second : WinLoss
deriving DecidableEq, Repr

/-- Running average margin state of an aggregate record. -/
structure AverageMargin where
  average : ℚ
  match_count : Nat
deriving DecidableEq, Repr

/-- One aggregate record per strategy name, before win rates are added. -/
structure AggregateRecord where
  games_played : Int
  average_margin : AverageMargin
  win_loss_rate : WinLossRate
deriving DecidableEq, Repr

/-- The aggregate_results Python dict, modelled as an association list. -/
abbrev AggMap := List (String × AggregateRecord)

/-- Dict lookup; none models the KeyError branch of the source. -/
def lookupAgg : AggMap → String → Option AggregateRecord
  | [], _ => none
  | (k, v) :: rest, name => if k = name then some v else lookupAgg rest name

/-- Dict assignment: replace the binding if present, else append it. -/
def updateAgg : AggMap → String → AggregateRecord → AggMap
  | [], name, r => [(name, r)]
  | (k, v) :: rest, name, r =>
      if k = name then (k, r) :: rest else (k, v) :: updateAgg rest name r

/-- The strategy_1 half of the aggregation fold in testStrategies (source
lines 449-522): on a hit, games_played grows by the batch game count, the
running average becomes
oldAverage * oldMatchCount + batchAverage0 / (10000 * oldMatchCount + 1)
with the match count incremented, and the overall and first buckets receive
the first-side wins and losses while second is copied; on a KeyError the
record is seeded with average = batchAverage0 / 10000 and match count 1. -/
def foldFirst (agg : AggMap) (b : BatchResult) : AggMap :=
  match lookupAgg agg b.game_settings.strategy_1 with
  | some current_strategy =>
      updateAgg agg b.game_settings.strategy_1
        { games_played := current_strategy.games_played + b.game_settings.game_count
          average_margin :=
            { average := current_strategy.average_margin.average *
                  (current_strategy.average_margin.match_count : ℚ) +
                  b.average_margins.1 /
                    (10000 * (current_strategy.average_margin.match_count : ℚ) + 1)
              match_count := current_strategy.average_margin.match_count + 1 }
          win_loss_rate :=
            { overall :=
                { wins := current_strategy.win_loss_rate.overall.wins + b.win_count.1
                  losses := current_strategy.win_loss_rate.overall.losses +
                      (b.game_settings.game_count - b.win_count.1) }
              first :=
                { wins := current_strategy.win_loss_rate.first.wins + b.win_count.1
                  losses := current_strategy.win_loss_rate.first.losses +
                      (b.game_settings.game_count - b.win_count.1) }
              second :=
                { wins := current_strategy.win_loss_rate.second.wins
                  losses := current_strategy.win_loss_rate.second.losses } } }
  | none =>
      updateAgg agg b.game_settings.strategy_1
        { games_played := b.game_settings.game_count
          average_margin :=
            { average := b.average_margins.1 / 10000
              match_count := 1 }
          win_loss_rate :=
            { overall :=
                { wins := b.win_count.1
                  losses := b.game_settings.game_count - b.win_count.1 }
              first :=
                { wins := b.win_count.1
                  losses := b.game_settings.game_count - b.win_count.1 }
              second := { wins := 0, losses := 0 } } }

/-- The strategy_2 half of the aggregation fold in testStrategies (source
lines 525-598), reproduced exactly as written: note that the source reads
average_margins[0] and win_count[0] (the first-side data) here as well, in
both the update and the seeding branch. -/
def foldSecond (agg : AggMap) (b : BatchResult) : AggMap :=
  match lookupAgg agg b.game_settings.strategy_2 with
  | some current_strategy =>
      updateAgg agg b.game_settings.strategy_2
        { games_played := current_strategy.games_played + b.game_settings.game_count
          average_margin :=
            { average := current_strategy.average_margin.average *
                  (current_strategy.average_margin.match_count : ℚ) +
                  b.average_margins.1 /
                    (10000 * (current_strategy.average_margin.match_count : ℚ) + 1)
              match_count := current_strategy.average_margin.match_count + 1 }
          win_loss_rate :=
            { overall :=
                { wins := current_strategy.win_loss_rate.overall.wins + b.win_count.1
                  losses := current_strategy.win_loss_rate.overall.losses +
                      (b.game_settings.game_count - b.win_count.1) }
              first :=
                { wins := current_strategy.win_loss_rate.first.wins
                  losses := current_strategy.win_loss_rate.first.losses }
              second :=
                { wins := current_strategy.win_loss_rate.second.wins + b.win_count.1
                  losses := current_strategy.win_loss_rate.second.losses +
                      (b.game_settings.game_count - b.win_count.1) } } }
  | none =>
      updateAgg agg b.game_settings.strategy_2
        { games_played := b.game_settings.game_count
          average_margin :=
            { average := b.average_margins.1 / 10000
              match_count := 1 }
          win_loss_rate :=
            { overall :=
                { wins := b.win_count.1
                  losses := b.game_settings.game_count - b.win_count.1 }
              first := { wins := 0, losses := 0 }
              second :=
                { wins := b.win_count.1
                  losses := b.game_settings.game_count - b.win_count.1 } } }

/-- Folding one batch record: the strategy_1 block runs first, then the
strategy_2 block on the updated dict, exactly as in the source loop body. -/
def foldBatch (agg : AggMap) (b : BatchResult) : AggMap :=
  foldSecond (foldFirst agg b) b

/-- The aggregation loop of testStrategies over all read batch records. -/
def aggregateBatches (bs : List BatchResult) : AggMap :=
  bs.foldl foldBatch []

/-- A win-loss bucket after the rate has been added. -/
structure RatedWinLoss where
  wins : Int
  losses : Int
  rate : ℚ
deriving DecidableEq, Repr

/-- The three rated buckets. -/
structure RatedWinLossRate where
  overall : RatedWinLoss
  first : RatedWinLoss
  second : RatedWinLoss
deriving DecidableEq, Repr

/-- An aggregate record after the win-rate pass. -/
structure RatedRecord where
  games_played : Int
  average_margin : AverageMargin
  win_loss_rate : RatedWinLossRate
deriving DecidableEq, Repr

/-- rate = wins / (wins + losses) for one bucket (source lines 606-617).
A zero denominator is a Python ZeroDivisionError, modelled as none. -/
def addRate (wl : WinLoss) : Option RatedWinLoss :=
  if wl.wins + wl.losses = 0 then none
  else some { wins := wl.wins, losses := wl.losses,
              rate := (wl.wins : ℚ) / ((wl.wins : ℚ) + (wl.losses : ℚ)) }

/-- The win-rate pass applied to one aggregate record: overall, then first,
then second, failing on the first zero denominator. -/
def addRatesRecord (r : AggregateRecord) : Option RatedRecord :=
  match addRate r.win_loss_rate.overall, addRate r.win_loss_rate.first,
      addRate r.win_loss_rate.second with
  | some o, some f, some s =>
      some { games_played := r.games_played
             average_margin := r.average_margin
             win_loss_rate := { overall := o, first := f, second := s } }
  | _, _, _ => none

/-- The win-rate pass over the whole aggregate dict. -/
def addRates (agg : AggMap) : Option (List (String × RatedRecord)) :=
  agg.mapM fun kv => (addRatesRecord kv.2).map fun rr => (kv.1, rr)

/-- testStrategies aggregation pipeline: fold all batches, then add rates. -/
def testStrategies (bs : List BatchResult) : Option (List (String × RatedRecord)) :=
  addRates (aggregateBatches bs)

/-- untilValue from the source: returns True exactly when the sum of the
current rolls has reached the first constant parameter. -/
def untilValue (winning_score current_score opponent_score : Nat)
    (current_rolls : List Nat) (constant_parameters : List Nat) : Bool :=
  if constant_parameters.headD 0 ≤ sumList current_rolls then true else false

/-- untilRoll from the source: inspects only the last roll; Python raises an
IndexError on an empty roll list, modelled as none. -/
def untilRoll (winning_score current_score opponent_score : Nat)
    (current_rolls : List Nat) (constant_parameters : List (List Nat)) :
    Option Bool :=
  match current_rolls.getLast? with
  | none => none
  | some lastRoll =>
      if lastRoll ∈ constant_parameters.headD [] then some false else some true

/-- alwaysTrue from the source. -/
def alwaysTrue (winning_score current_score opponent_score : Nat)
    (current_rolls : List Nat) (constant_parameters : List Nat) : Bool :=
  true

/-- alwaysFalse from the source. -/
def alwaysFalse (winning_score current_score opponent_score : Nat)
    (current_rolls : List Nat) (constant_parameters : List Nat) : Bool :=
  false

/- ===== helper lemmas about the engine ===== -/

theorem sumList_nil : sumList [] = 0 := rfl

theorem sumList_snoc (ms : List Nat) (r : Nat) :
    sumList (ms ++ [r]) = sumList ms + r := by
  simp [sumList, List.foldl_append]

/-- Exiting the game loop from the first break leaves the first score at or
above the winning score and the second below it, and symmetrically from the
second break. -/
theorem runGameLoop_winner (d1 d2 : Decide) (ws : Nat) (rolls : Nat → Nat) :
    ∀ fuel idx s1 s2 t1 t2 i, s1 < ws → s2 < ws →
      runGameLoop d1 d2 ws rolls fuel idx s1 s2 = some (t1, t2, i) →
      (ws ≤ t1 ∧ t2 < ws) ∨ (t1 < ws ∧ ws ≤ t2) := by
  intro fuel
  induction fuel with
  | zero =>
      intro idx s1 s2 t1 t2 i h1 h2 h
      simp [runGameLoop] at h
  | succ f ih =>
      intro idx s1 s2 t1 t2 i h1 h2 h
      simp only [runGameLoop] at h
      cases ht1 : runTurn d1 ws s1 s2 rolls (f + 1) idx [] with
      | none => simp [ht1] at h
      | some p1 =>
          obtain ⟨m1, i1⟩ := p1
          simp only [ht1] at h
          by_cases hw1 : ws ≤ s1 + sumList m1
          · simp only [if_pos hw1, Option.some.injEq, Prod.mk.injEq] at h
            obtain ⟨e1, e2, e3⟩ := h
            subst e1; subst e2
            exact Or.inl ⟨hw1, h2⟩
          · simp only [if_neg hw1] at h
            cases ht2 : runTurn d2 ws s2 (s1 + sumList m1) rolls (f + 1) i1 [] with
            | none => simp [ht2] at h
            | some p2 =>
                obtain ⟨m2, i2⟩ := p2
                simp only [ht2] at h
                by_cases hw2 : ws ≤ s2 + sumList m2
                · simp only [if_pos hw2, Option.some.injEq, Prod.mk.injEq] at h
                  obtain ⟨e1, e2, e3⟩ := h
                  subst e1; subst e2
                  exact Or.inr ⟨by omega, hw2⟩
                · simp only [if_neg hw2] at h
                  exact ih i2 _ _ t1 t2 i (by omega) (by omega) h

/-- In a turn whose banked score plus pending sum stays at most ws + 5 at
entry, it stays so at exit, provided every roll is at most 6. -/
theorem runTurn_le_bound (d : Decide) (ws score opp : Nat) (rolls : Nat → Nat)
    (hr : ∀ j, rolls j ≤ 6) :
    ∀ fuel idx moves m2 i2, score + sumList moves ≤ ws + 5 →
      runTurn d ws score opp rolls fuel idx moves = some (m2, i2) →
      score + sumList m2 ≤ ws + 5 := by
  intro fuel
  induction fuel with
  | zero =>
      intro idx moves m2 i2 hb h
      simp only [runTurn] at h
      by_cases hc : score + sumList moves < ws
      · simp [hc] at h
      · simp only [if_neg hc, Option.some.injEq, Prod.mk.injEq] at h
        obtain ⟨e1, e2⟩ := h
        subst e1
        exact hb
  | succ f ih =>
      intro idx moves m2 i2 hb h
      simp only [runTurn] at h
      by_cases hc : score + sumList moves < ws
      · simp only [if_pos hc] at h
        by_cases hr1 : rolls idx = 1
        · simp only [if_pos hr1, Option.some.injEq, Prod.mk.injEq] at h
          obtain ⟨e1, e2⟩ := h
          subst e1
          rw [sumList_nil]
          omega
        · simp only [if_neg hr1] at h
          by_cases hd : d ws score opp (moves ++ [rolls idx]) = true
          · simp only [if_pos hd] at h
            refine ih (idx + 1) (moves ++ [rolls idx]) m2 i2 ?_ h
            have hs := sumList_snoc moves (rolls idx)
            have h6 := hr idx
            omega
          · simp only [if_neg hd, Option.some.injEq, Prod.mk.injEq] at h
            obtain ⟨e1, e2⟩ := h
            subst e1
            have hs := sumList_snoc moves (rolls idx)
            have h6 := hr idx
            omega
      · simp only [if_neg hc, Option.some.injEq, Prod.mk.injEq] at h
        obtain ⟨e1, e2⟩ := h
        subst e1
        exact hb

/-- Both final scores of a completed game loop are at most ws + 5 if every
roll is at most 6. -/
theorem runGameLoop_le_bound (d1 d2 : Decide) (ws : Nat) (rolls : Nat → Nat)
    (hr : ∀ j, rolls j ≤ 6) :
    ∀ fuel idx s1 s2 t1 t2 i, s1 < ws → s2 < ws →
      runGameLoop d1 d2 ws rolls fuel idx s1 s2 = some (t1, t2, i) →
      t1 ≤ ws + 5 ∧ t2 ≤ ws + 5 := by
  intro fuel
  induction fuel with
  | zero =>
      intro idx s1 s2 t1 t2 i h1 h2 h
      simp [runGameLoop] at h
  | succ f ih =>
      intro idx s1 s2 t1 t2 i h1 h2 h
      simp only [runGameLoop] at h
      cases ht1 : runTurn d1 ws s1 s2 rolls (f + 1) idx [] with
      | none => simp [ht1] at h
      | some p1 =>
          obtain ⟨m1, i1⟩ := p1
          have hb1 : s1 + sumList m1 ≤ ws + 5 :=
            runTurn_le_bound d1 ws s1 s2 rolls hr (f + 1) idx [] m1 i1
              (by rw [sumList_nil]; omega) ht1
          simp only [ht1] at h
          by_cases hw1 : ws ≤ s1 + sumList m1
          · simp only [if_pos hw1, Option.some.injEq, Prod.mk.injEq] at h
            obtain ⟨e1, e2, e3⟩ := h
            subst e1; subst e2
            omega
          · simp only [if_neg hw1] at h
            cases ht2 : runTurn d2 ws s2 (s1 + sumList m1) rolls (f + 1) i1 [] with
            | none => simp [ht2] at h
            | some p2 =>
                obtain ⟨m2, i2⟩ := p2
                have hb2 : s2 + sumList m2 ≤ ws + 5 :=
                  runTurn_le_bound d2 ws s2 (s1 + sumList m1) rolls hr (f + 1) i1 [] m2 i2
                    (by rw [sumList_nil]; omega) ht2
                simp only [ht2] at h
                by_cases hw2 : ws ≤ s2 + sumList m2
                · simp only [if_pos hw2, Option.some.injEq, Prod.mk.injEq] at h
                  obtain ⟨e1, e2, e3⟩ := h
                  subst e1; subst e2
                  omega
                · simp only [if_neg hw2] at h
                  exact ih i2 _ _ t1 t2 i (by omega) (by omega) h

/- ===== claim C5 ===== -/

/-- C5: in any turn in which a 1 was drawn from the stream (any consumed
position carrying a 1), the returned pending sequence is empty, so banking
adds zero and the banked score is unchanged by that turn. -/
theorem C5_bust_discards_pending (d : Decide) (ws score opp : Nat)
    (rolls : Nat → Nat) :
    ∀ fuel idx moves m2 i2,
      runTurn d ws score opp rolls fuel idx moves = some (m2, i2) →
      (∃ j, idx ≤ j ∧ j < i2 ∧ rolls j = 1) →
      m2 = [] ∧ score + sumList m2 = score := by
  intro fuel
  induction fuel with
  | zero =>
      intro idx moves m2 i2 h hj
      simp only [runTurn] at h
      by_cases hc : score + sumList moves < ws
      · simp [hc] at h
      · simp only [if_neg hc, Option.some.injEq, Prod.mk.injEq] at h
        obtain ⟨e1, e2⟩ := h
        obtain ⟨j, hj1, hj2, hj3⟩ := hj
        omega
  | succ f ih =>
      intro idx moves m2 i2 h hj
      simp only [runTurn] at h
      by_cases hc : score + sumList moves < ws
      · simp only [if_pos hc] at h
        by_cases hr1 : rolls idx = 1
        · simp only [if_pos hr1, Option.some.injEq, Prod.mk.injEq] at h
          obtain ⟨e1, e2⟩ := h
          subst e1
          exact ⟨rfl, by simp [sumList_nil]⟩
        · simp only [if_neg hr1] at h
          by_cases hd : d ws score opp (moves ++ [rolls idx]) = true
          · simp only [if_pos hd] at h
            obtain ⟨j, hj1, hj2, hj3⟩ := hj
            by_cases hje : j = idx
            · subst hje
              exact absurd hj3 hr1
            · exact ih (idx + 1) (moves ++ [rolls idx]) m2 i2 h ⟨j, by omega, hj2, hj3⟩
          · simp only [if_neg hd, Option.some.injEq, Prod.mk.injEq] at h
            obtain ⟨e1, e2⟩ := h
            obtain ⟨j, hj1, hj2, hj3⟩ := hj
            have hje : j = idx := by omega
            subst hje
            exact absurd hj3 hr1
      · simp only [if_neg hc, Option.some.injEq, Prod.mk.injEq] at h
        obtain ⟨e1, e2⟩ := h
        obtain ⟨j, hj1, hj2, hj3⟩ := hj
        omega

/-- C5 witness: a concrete busted turn (winning score 10, stream of 1s)
returns an empty pending list and leaves the score unchanged. -/
theorem C5_bust_discards_pending_witness :
    ([] : List Nat) = [] ∧ 0 + sumList [] = 0 :=
  C5_bust_discards_pending (fun _ _ _ _ => true) 10 0 0 (fun _ => 1) 5 0 [] [] 1
    rfl ⟨0, Nat.le_refl 0, Nat.lt_succ_self 0, rfl⟩

/- ===== claim C4 ===== -/

/-- C4: for every completed game, the winner is the side whose final score
reached the winning score (exactly one side did, for ws at least 1), and the
returned margin is 100 minus the other (losing) side final banked score, the
constant 100 being independent of the configured winning score. -/
theorem C4_margin_hardcoded_100 (n1 n2 : String) (d1 d2 : Decide) (ws : Nat)
    (rolls : Nat → Nat) (fuel idx s1 s2 i : Nat) (hws : 1 ≤ ws)
    (h : runGameLoop d1 d2 ws rolls fuel idx 0 0 = some (s1, s2, i)) :
    ((ws ≤ s1 ∧ s2 < ws) ∨ (s1 < ws ∧ ws ≤ s2)) ∧
      runSimulation n1 d1 n2 d2 ws rolls fuel idx =
        some (⟨if ws ≤ s1 then n1 else n2,
               100 - (if ws ≤ s1 then (s2 : Int) else (s1 : Int))⟩, i) := by
  have hw := runGameLoop_winner d1 d2 ws rolls fuel idx 0 0 s1 s2 i
    (by omega) (by omega) h
  refine ⟨hw, ?_⟩
  simp only [runSimulation, h]
  by_cases h1 : ws ≤ s1
  · simp [h1]
  · simp [h1]

/-- C4 witness: a concrete game with winning score 3 (not 100) where the
first side finishes at 4 and the loser at 0, and the margin is 100 - 0. -/
theorem C4_margin_hardcoded_100_witness :
    ((3 ≤ 4 ∧ 0 < 3) ∨ (4 < 3 ∧ 3 ≤ 0)) ∧
      runSimulation "a" (fun _ _ _ _ => true) "b" (fun _ _ _ _ => true) 3
          (fun _ => 2) 5 0 =
        some (⟨"a", 100⟩, 2) := by
  have h := C4_margin_hardcoded_100 "a" "b" (fun _ _ _ _ => true)
    (fun _ _ _ _ => true) 3 (fun _ => 2) 5 0 4 0 2 (by omega) rfl
  simpa using h

/- ===== claim C10 ===== -/

/-- C10: with winning score at least 1 and every roll at most 6, both final
banked scores of a completed game (in particular the winner score) are at
most winning score + 5: the turn loop only rolls while banked plus pending
is strictly below the winning score and one roll adds at most 6. -/
theorem C10_winner_score_bound (d1 d2 : Decide) (ws : Nat) (rolls : Nat → Nat)
    (fuel idx s1 s2 i : Nat) (hws : 1 ≤ ws) (hr : ∀ j, rolls j ≤ 6)
    (h : runGameLoop d1 d2 ws rolls fuel idx 0 0 = some (s1, s2, i)) :
    s1 ≤ ws + 5 ∧ s2 ≤ ws + 5 :=
  runGameLoop_le_bound d1 d2 ws rolls hr fuel idx 0 0 s1 s2 i
    (by omega) (by omega) h

/-- C10 witness: the concrete game of the C4 witness obeys the bound. -/
theorem C10_winner_score_bound_witness : 4 ≤ 3 + 5 ∧ 0 ≤ 3 + 5 :=
  C10_winner_score_bound (fun _ _ _ _ => true) (fun _ _ _ _ => true) 3
    (fun _ => 2) 5 0 4 0 2 (by omega) (fun j => by norm_num) rfl

/- ===== claim C8 ===== -/

/-- With a stream of constant 1s and winning score 1, every turn busts at
once, no score ever changes, and the game loop exhausts any fuel. -/
theorem runGameLoop_all_ones (fuel : Nat) : ∀ idx,
    runGameLoop (fun _ _ _ _ => true) (fun _ _ _ _ => true) 1
      (fun _ => 1) fuel idx 0 0 = none := by
  induction fuel with
  | zero => intro idx; rfl
  | succ f ih =>
      intro idx
      have ht : ∀ k, runTurn (fun _ _ _ _ => true) 1 0 0 (fun _ => 1)
          (f + 1) k [] = some ([], k + 1) := by
        intro k
        simp [runTurn, sumList_nil]
      simp only [runGameLoop, ht, sumList_nil, Nat.add_zero]
      simp [ih]

/-- C8 counterexample: there is an injected stream of die rolls in [1,6]
(the constant stream of 1s) for which runSimulation never returns, whatever
fuel it is given: the claim as stated, quantifying over every injected
stream, is false. -/
theorem C8_counterexample :
    ¬ ∃ fuel r, runSimulation "alwaysTrue" (fun _ _ _ _ => true) "alwaysFalse"
        (fun _ _ _ _ => true) 1 (fun _ => 1) fuel 0 = some r := by
  rintro ⟨fuel, r, h⟩
  simp [runSimulation, runGameLoop_all_ones fuel 0] at h

/-- A turn returns within fuel at least ws - (score + pending sum) steps when
every roll is at least 2 (no busts, and each kept roll adds at least 2). -/
theorem runTurn_total (d : Decide) (ws score opp : Nat) (rolls : Nat → Nat)
    (hr : ∀ j, 2 ≤ rolls j) :
    ∀ fuel idx moves, ws ≤ score + sumList moves + fuel →
      ∃ m2 i2, runTurn d ws score opp rolls fuel idx moves = some (m2, i2) := by
  intro fuel
  induction fuel with
  | zero =>
      intro idx moves hb
      have hc : ¬ score + sumList moves < ws := by omega
      simp only [runTurn]
      simp [hc]
  | succ f ih =>
      intro idx moves hb
      simp only [runTurn]
      by_cases hc : score + sumList moves < ws
      · simp only [if_pos hc]
        have hr1 : ¬ rolls idx = 1 := by have := hr idx; omega
        simp only [if_neg hr1]
        by_cases hd : d ws score opp (moves ++ [rolls idx]) = true
        · simp only [if_pos hd]
          refine ih (idx + 1) (moves ++ [rolls idx]) ?_
          have hs := sumList_snoc moves (rolls idx)
          have h2 := hr idx
          omega
        · simp only [if_neg hd]
          exact ⟨moves ++ [rolls idx], idx + 1, rfl⟩
      · simp only [if_neg hc]
        exact ⟨moves, idx, rfl⟩

/-- When every roll is at least 2, a turn never shrinks the pending sum, and
grows it by at least 2 whenever the loop body actually runs. -/
theorem runTurn_progress (d : Decide) (ws score opp : Nat) (rolls : Nat → Nat)
    (hr : ∀ j, 2 ≤ rolls j) :
    ∀ fuel idx moves m2 i2,
      runTurn d ws score opp rolls fuel idx moves = some (m2, i2) →
      sumList moves ≤ sumList m2 ∧
        (score + sumList moves < ws → sumList moves + 2 ≤ sumList m2) := by
  intro fuel
  induction fuel with
  | zero =>
      intro idx moves m2 i2 h
      simp only [runTurn] at h
      by_cases hc : score + sumList moves < ws
      · simp [hc] at h
      · simp only [if_neg hc, Option.some.injEq, Prod.mk.injEq] at h
        obtain ⟨e1, e2⟩ := h
        subst e1
        exact ⟨Nat.le_refl _, fun hlt => absurd hlt hc⟩
  | succ f ih =>
      intro idx moves m2 i2 h
      simp only [runTurn] at h
      by_cases hc : score + sumList moves < ws
      · simp only [if_pos hc] at h
        have hr1 : ¬ rolls idx = 1 := by have := hr idx; omega
        simp only [if_neg hr1] at h
        by_cases hd : d ws score opp (moves ++ [rolls idx]) = true
        · simp only [if_pos hd] at h
          have hrec := ih (idx + 1) (moves ++ [rolls idx]) m2 i2 h
          have hs := sumList_snoc moves (rolls idx)
          have h2 := hr idx
          obtain ⟨hrec1, hrec2⟩ := hrec
          constructor
          · omega
          · intro hlt
            omega
        · simp only [if_neg hd, Option.some.injEq, Prod.mk.injEq] at h
          obtain ⟨e1, e2⟩ := h
          subst e1
          have hs := sumList_snoc moves (rolls idx)
          have h2 := hr idx
          constructor
          · omega
          · intro hlt
            omega
      · simp only [if_neg hc, Option.some.injEq, Prod.mk.injEq] at h
        obtain ⟨e1, e2⟩ := h
        subst e1
        exact ⟨Nat.le_refl _, fun hlt => absurd hlt hc⟩

/-- With every roll at least 2, the game loop returns once it is given fuel
at least the remaining deficit of either side: every full turn banks at
least 2, so deficits shrink faster than the fuel. -/
theorem runGameLoop_total (d1 d2 : Decide) (ws : Nat) (rolls : Nat → Nat)
    (hr : ∀ j, 2 ≤ rolls j) :
    ∀ fuel idx s1 s2, s1 < ws → s2 < ws → ws ≤ s1 + fuel → ws ≤ s2 + fuel →
      ∃ out, runGameLoop d1 d2 ws rolls fuel idx s1 s2 = some out := by
  intro fuel
  induction fuel with
  | zero =>
      intro idx s1 s2 h1 h2 hf1 hf2
      omega
  | succ f ih =>
      intro idx s1 s2 h1 h2 hf1 hf2
      obtain ⟨m1, i1, ht1⟩ := runTurn_total d1 ws s1 s2 rolls hr (f + 1) idx []
        (by rw [sumList_nil]; omega)
      have hp1 : 2 ≤ sumList m1 := by
        have := (runTurn_progress d1 ws s1 s2 rolls hr (f + 1) idx [] m1 i1 ht1).2
        rw [sumList_nil] at this
        have := this (by omega)
        omega
      simp only [runGameLoop, ht1]
      by_cases hw1 : ws ≤ s1 + sumList m1
      · exact ⟨(s1 + sumList m1, s2, i1), by simp [hw1]⟩
      · simp only [if_neg hw1]
        obtain ⟨m2, i2, ht2⟩ := runTurn_total d2 ws s2 (s1 + sumList m1) rolls hr
          (f + 1) i1 [] (by rw [sumList_nil]; omega)
        have hp2 : 2 ≤ sumList m2 := by
          have := (runTurn_progress d2 ws s2 (s1 + sumList m1) rolls hr
            (f + 1) i1 [] m2 i2 ht2).2
          rw [sumList_nil] at this
          have := this (by omega)
          omega
        simp only [ht2]
        by_cases hw2 : ws ≤ s2 + sumList m2
        · exact ⟨(s1 + sumList m1, s2 + sumList m2, i2), by simp [hw2]⟩
        · simp only [if_neg hw2]
          exact ih i2 (s1 + sumList m1) (s2 + sumList m2)
            (by omega) (by omega) (by omega) (by omega)

/-- C8 (amended): for every winning score at least 1, every pair of decision
functions, and every injected stream of die rolls all lying in [2,6] (so no
roll ever busts), runSimulation terminates: some fuel makes it return. -/
theorem C8_terminates_no_bust (n1 n2 : String) (d1 d2 : Decide) (ws : Nat)
    (rolls : Nat → Nat) (hws : 1 ≤ ws)
    (hr : ∀ j, 2 ≤ rolls j ∧ rolls j ≤ 6) :
    ∃ fuel r, runSimulation n1 d1 n2 d2 ws rolls fuel 0 = some r := by
  obtain ⟨out, hout⟩ := runGameLoop_total d1 d2 ws rolls (fun j => (hr j).1)
    ws 0 0 0 (by omega) (by omega) (by omega) (by omega)
  obtain ⟨s1, s2, i⟩ := out
  refine ⟨ws, ?_⟩
  simp only [runSimulation, hout]
  by_cases h1 : ws ≤ s1
  · exact ⟨(⟨n1, 100 - (s2 : Int)⟩, i), by simp [h1]⟩
  · exact ⟨(⟨n2, 100 - (s1 : Int)⟩, i), by simp [h1]⟩

/-- C8 witness: a concrete bust-free stream (all 2s) with winning score 1
terminates. -/
theorem C8_terminates_no_bust_witness :
    ∃ fuel r, runSimulation "a" (fun _ _ _ _ => true) "b" (fun _ _ _ _ => true)
      1 (fun _ => 2) fuel 0 = some r :=
  C8_terminates_no_bust "a" "b" (fun _ _ _ _ => true) (fun _ _ _ _ => true)
    1 (fun _ => 2) (by omega) (fun j => ⟨by norm_num, by norm_num⟩)

/- ===== claim C9 ===== -/

/-- The turn loop consults the decision function only on a roll sequence to
which a non-bust roll was just appended, hence never on the empty sequence:
two decision functions agreeing on all non-empty sequences drive it
identically. -/
theorem runTurn_congr (d db : Decide)
    (hag : ∀ w c o m, m ≠ [] → d w c o m = db w c o m)
    (ws score opp : Nat) (rolls : Nat → Nat) :
    ∀ fuel idx moves, runTurn d ws score opp rolls fuel idx moves =
      runTurn db ws score opp rolls fuel idx moves := by
  intro fuel
  induction fuel with
  | zero => intro idx moves; rfl
  | succ f ih =>
      intro idx moves
      simp only [runTurn]
      by_cases hc : score + sumList moves < ws
      · simp only [if_pos hc]
        by_cases hr1 : rolls idx = 1
        · simp [hr1]
        · simp only [if_neg hr1]
          have hne : moves ++ [rolls idx] ≠ [] := by simp
          rw [hag ws score opp (moves ++ [rolls idx]) hne]
          by_cases hd : db ws score opp (moves ++ [rolls idx]) = true
          · simp only [if_pos hd]
            exact ih (idx + 1) (moves ++ [rolls idx])
          · simp only [if_neg hd]
      · simp only [if_neg hc]

/-- The whole game loop is likewise insensitive to how the decision
functions behave on the empty roll sequence. -/
theorem runGameLoop_congr (d1 d1b d2 d2b : Decide)
    (h1 : ∀ w c o m, m ≠ [] → d1 w c o m = d1b w c o m)
    (h2 : ∀ w c o m, m ≠ [] → d2 w c o m = d2b w c o m)
    (ws : Nat) (rolls : Nat → Nat) :
    ∀ fuel idx s1 s2, runGameLoop d1 d2 ws rolls fuel idx s1 s2 =
      runGameLoop d1b d2b ws rolls fuel idx s1 s2 := by
  intro fuel
  induction fuel with
  | zero => intro idx s1 s2; rfl
  | succ f ih =>
      intro idx s1 s2
      simp only [runGameLoop]
      rw [runTurn_congr d1 d1b h1 ws s1 s2 rolls (f + 1) idx []]
      cases runTurn d1b ws s1 s2 rolls (f + 1) idx [] with
      | none => rfl
      | some p1 =>
          obtain ⟨m1, i1⟩ := p1
          by_cases hw1 : ws ≤ s1 + sumList m1
          · simp [hw1]
          · simp only [if_neg hw1]
            rw [runTurn_congr d2 d2b h2 ws s2 (s1 + sumList m1) rolls (f + 1) i1 []]
            cases runTurn d2b ws s2 (s1 + sumList m1) rolls (f + 1) i1 [] with
            | none => rfl
            | some p2 =>
                obtain ⟨m2, i2⟩ := p2
                by_cases hw2 : ws ≤ s2 + sumList m2
                · simp [hw2]
                · simp only [if_neg hw2]
                  exact ih i2 _ _

/-- C9: the engine asks for a decision only after appending a non-bust roll
to the current turn sequence, so every decision call sees a non-empty roll
sequence: replacing each decision function by any function that agrees with
it on non-empty sequences (but may differ on the empty one, e.g. the
IndexError branch of untilRoll) leaves the whole simulation unchanged. -/
theorem C9_decision_calls_nonempty (n1 n2 : String) (d1 d1b d2 d2b : Decide)
    (ws : Nat) (rolls : Nat → Nat) (fuel idx : Nat)
    (h1 : ∀ w c o m, m ≠ [] → d1 w c o m = d1b w c o m)
    (h2 : ∀ w c o m, m ≠ [] → d2 w c o m = d2b w c o m) :
    runSimulation n1 d1 n2 d2 ws rolls fuel idx =
      runSimulation n1 d1b n2 d2b ws rolls fuel idx := by
  simp only [runSimulation,
    runGameLoop_congr d1 d1b d2 d2b h1 h2 ws rolls fuel idx 0 0]

/-- C9 witness: the always-continue decision and a function differing from
it exactly on the empty roll sequence produce identical simulations. -/
theorem C9_decision_calls_nonempty_witness :
    runSimulation "a" (fun _ _ _ _ => true) "b" (fun _ _ _ _ => true) 2
        (fun _ => 3) 4 0 =
      runSimulation "a" (fun _ _ _ m => !m.isEmpty) "b"
        (fun _ _ _ m => !m.isEmpty) 2 (fun _ => 3) 4 0 :=
  C9_decision_calls_nonempty "a" "b" (fun _ _ _ _ => true)
    (fun _ _ _ m => !m.isEmpty) (fun _ _ _ _ => true)
    (fun _ _ _ m => !m.isEmpty) 2 (fun _ => 3) 4 0
    (fun w c o m hm => by cases m with
      | nil => exact absurd rfl hm
      | cons a t => rfl)
    (fun w c o m hm => by cases m with
      | nil => exact absurd rfl hm
      | cons a t => rfl)

/- ===== claim C1 ===== -/

/-- Dict assignment followed by lookup of the same key yields the record
just written. -/
theorem lookupAgg_updateAgg_self (agg : AggMap) (name : String)
    (r : AggregateRecord) :
    lookupAgg (updateAgg agg name r) name = some r := by
  induction agg with
  | nil => simp [updateAgg, lookupAgg]
  | cons kv rest ih =>
      obtain ⟨k, v⟩ := kv
      by_cases h : k = name
      · simp [updateAgg, lookupAgg, h]
      · simp [updateAgg, lookupAgg, h, ih]

/-- C1: folding a batch record updates the first-listed strategy running
average exactly by
newAverage = oldAverage * oldMatchCount
  + batchAverageMargin / (10000 * oldMatchCount + 1)
with newMatchCount = oldMatchCount + 1, and seeds a first observation with
average = batchAverageMargin / 10000 and matchCount = 1, where
batchAverageMargin is average_margins[0], the first-side batch average. -/
theorem C1_first_strategy_average_update (agg : AggMap) (b : BatchResult) :
    (∀ cur, lookupAgg agg b.game_settings.strategy_1 = some cur →
      (lookupAgg (foldFirst agg b) b.game_settings.strategy_1).map
          (fun r => (r.average_margin.average, r.average_margin.match_count)) =
        some (cur.average_margin.average * (cur.average_margin.match_count : ℚ) +
            b.average_margins.1 /
              (10000 * (cur.average_margin.match_count : ℚ) + 1),
          cur.average_margin.match_count + 1)) ∧
    (lookupAgg agg b.game_settings.strategy_1 = none →
      (lookupAgg (foldFirst agg b) b.game_settings.strategy_1).map
          (fun r => (r.average_margin.average, r.average_margin.match_count)) =
        some (b.average_margins.1 / 10000, 1)) := by
  constructor
  · intro cur hcur
    simp only [foldFirst, hcur, lookupAgg_updateAgg_self]
    rfl
  · intro hnone
    simp only [foldFirst, hnone, lookupAgg_updateAgg_self]
    rfl

/-- Concrete prior record for the C1 witness. -/
def curC1 : AggregateRecord :=
  { games_played := 7
    average_margin := { average := 3, match_count := 2 }
    win_loss_rate :=
      { overall := { wins := 4, losses := 3 }
        first := { wins := 4, losses := 3 }
        second := { wins := 0, losses := 0 } } }

/-- Concrete batch record for the C1 witness. -/
def bC1 : BatchResult :=
  { game_settings :=
      { game_count := 5, winning_score := 100,
        strategy_1 := "A", strategy_2 := "B" }
    win_count := (3, 2)
    win_margins := ([10, 10, 10, -5, -5], [-10, -10, -10, 5, 5])
    average_margins := (4, -4) }

/-- C1 witness: the update formula and the seeding base case evaluated on a
concrete prior record and batch. -/
theorem C1_first_strategy_average_update_witness :
    (lookupAgg (foldFirst [("A", curC1)] bC1) "A").map
        (fun r => (r.average_margin.average, r.average_margin.match_count)) =
      some ((3 : ℚ) * 2 + 4 / (10000 * 2 + 1), 3) ∧
    (lookupAgg (foldFirst [] bC1) "A").map
        (fun r => (r.average_margin.average, r.average_margin.match_count)) =
      some ((4 : ℚ) / 10000, 1) := by
  constructor
  · have h := (C1_first_strategy_average_update [("A", curC1)] bC1).1 curC1 rfl
    have e : bC1.game_settings.strategy_1 = "A" := rfl
    rw [e] at h
    rw [h]
    norm_num [curC1, bC1]
  · have h := (C1_first_strategy_average_update [] bC1).2 rfl
    have e : bC1.game_settings.strategy_1 = "A" := rfl
    rw [e] at h
    rw [h]
    norm_num [bC1]

/- ===== claim C2 ===== -/

/-- Concrete batch record exhibiting the strategy_2 aggregation bug:
the two sides have different win counts and different average margins. -/
def bC2 : BatchResult :=
  { game_settings :=
      { game_count := 3, winning_score := 100,
        strategy_1 := "A", strategy_2 := "B" }
    win_count := (2, 1)
    win_margins := ([50, 50, -40], [-50, -50, 40])
    average_margins := (20, -20) }

/-- C2: evaluation at the failing input. Folding bC2 into an empty aggregate
gives strategy "B" overall and second wins 2 and losses 1 and running average
seeded from 20 / 10000, although the second-side data of the batch is
win_count[1] = 1 (so losses should be 2) and average_margins[1] = -20: the
source adds win_count[0] and reads average_margins[0] in the strategy_2
branch. Only the untouched-first part of the claim holds. -/
theorem C2_second_strategy_uses_first_side_data :
    (lookupAgg (aggregateBatches [bC2]) "B").map
        (fun r => (r.win_loss_rate.overall.wins, r.win_loss_rate.overall.losses,
                   r.win_loss_rate.second.wins, r.win_loss_rate.second.losses,
                   r.win_loss_rate.first.wins, r.win_loss_rate.first.losses,
                   r.average_margin.average)) =
      some (2, 1, 2, 1, 0, 0, 20 / 10000) ∧
    bC2.win_count.2 = 1 ∧
    bC2.game_settings.game_count - bC2.win_count.2 = 2 ∧
    bC2.average_margins.2 = -20 ∧
    (2 : Int) ≠ 1 ∧ ((20 : ℚ) / 10000) ≠ ((-20 : ℚ) / 10000) := by
  refine ⟨rfl, rfl, rfl, rfl, by norm_num, by norm_num⟩

/- ===== claim C3 ===== -/

/-- C3: evaluation at the failing input. With threshold 5, untilValue returns
false on the roll sequence [2] (sum 2 below 5) and true on [6] (sum 6 at or
above 5); the engine continues the turn exactly on true (third conjunct: the
turn driven by untilValue with threshold 5 banks immediately after a single
roll of 2, the false decision ending the turn).  This is the opposite
polarity of the claim, which says continue exactly while the sum is strictly
below the threshold. -/
theorem C3_untilValue_polarity_inverted :
    untilValue 100 0 0 [2] [5] = false ∧
    untilValue 100 0 0 [6] [5] = true ∧
    runTurn (fun w c o m => untilValue w c o m [5]) 100 0 0 (fun _ => 2)
        50 0 [] = some ([2], 1) := by
  refine ⟨rfl, rfl, rfl⟩

/- ===== claim C7 ===== -/

/-- C7: the rate pass computes rate = wins / (wins + losses) for each of the
overall, first and second buckets, and fails (none, modelling the Python
ZeroDivisionError) exactly when some bucket has wins + losses = 0, rather
than producing any value. -/
theorem C7_rate_division_by_zero (r : AggregateRecord) :
    (addRatesRecord r = none ↔
      (r.win_loss_rate.overall.wins + r.win_loss_rate.overall.losses = 0 ∨
       r.win_loss_rate.first.wins + r.win_loss_rate.first.losses = 0 ∨
       r.win_loss_rate.second.wins + r.win_loss_rate.second.losses = 0)) ∧
    (∀ rr, addRatesRecord r = some rr →
      rr.win_loss_rate.overall.rate =
          (r.win_loss_rate.overall.wins : ℚ) /
            ((r.win_loss_rate.overall.wins : ℚ) +
              (r.win_loss_rate.overall.losses : ℚ)) ∧
      rr.win_loss_rate.first.rate =
          (r.win_loss_rate.first.wins : ℚ) /
            ((r.win_loss_rate.first.wins : ℚ) +
              (r.win_loss_rate.first.losses : ℚ)) ∧
      rr.win_loss_rate.second.rate =
          (r.win_loss_rate.second.wins : ℚ) /
            ((r.win_loss_rate.second.wins : ℚ) +
              (r.win_loss_rate.second.losses : ℚ))) := by
  by_cases h1 : r.win_loss_rate.overall.wins + r.win_loss_rate.overall.losses = 0 <;>
    by_cases h2 : r.win_loss_rate.first.wins + r.win_loss_rate.first.losses = 0 <;>
      by_cases h3 : r.win_loss_rate.second.wins + r.win_loss_rate.second.losses = 0 <;>
        constructor <;>
          simp [addRatesRecord, addRate, h1, h2, h3] <;>
            intro hrr <;> subst hrr <;> simp

/-- Concrete aggregate record with all buckets non-empty, for the C7
witness. -/
def rC7 : AggregateRecord :=
  { games_played := 8
    average_margin := { average := 2, match_count := 3 }
    win_loss_rate :=
      { overall := { wins := 3, losses := 1 }
        first := { wins := 2, losses := 2 }
        second := { wins := 1, losses := 3 } } }

/-- The rated record the pass produces for rC7. -/
def rrC7 : RatedRecord :=
  { games_played := 8
    average_margin := { average := 2, match_count := 3 }
    win_loss_rate :=
      { overall :=
          { wins := 3
            losses := 1
            rate := ((3 : Int) : ℚ) / (((3 : Int) : ℚ) + ((1 : Int) : ℚ)) }
        first :=
          { wins := 2
            losses := 2
            rate := ((2 : Int) : ℚ) / (((2 : Int) : ℚ) + ((2 : Int) : ℚ)) }
        second :=
          { wins := 1
            losses := 3
            rate := ((1 : Int) : ℚ) / (((1 : Int) : ℚ) + ((3 : Int) : ℚ)) } } }

/-- Concrete aggregate record whose second bucket is empty, for the C7
witness. -/
def rC7zero : AggregateRecord :=
  { games_played := 8
    average_margin := { average := 2, match_count := 3 }
    win_loss_rate :=
      { overall := { wins := 3, losses := 1 }
        first := { wins := 2, losses := 2 }
        second := { wins := 0, losses := 0 } } }

/-- C7 witness: on rC7 every rate is wins / (wins + losses); on rC7zero,
whose second bucket is empty, the pass fails with none. -/
theorem C7_rate_division_by_zero_witness :
    (rrC7.win_loss_rate.overall.rate =
        ((3 : Int) : ℚ) / (((3 : Int) : ℚ) + ((1 : Int) : ℚ)) ∧
      rrC7.win_loss_rate.first.rate =
        ((2 : Int) : ℚ) / (((2 : Int) : ℚ) + ((2 : Int) : ℚ)) ∧
      rrC7.win_loss_rate.second.rate =
        ((1 : Int) : ℚ) / (((1 : Int) : ℚ) + ((3 : Int) : ℚ))) ∧
    addRatesRecord rC7zero = none :=
  ⟨(C7_rate_division_by_zero rC7).2 rrC7
      (by norm_num [addRatesRecord, addRate, rC7, rrC7]),
   (C7_rate_division_by_zero rC7zero).1.mpr (Or.inr (Or.inr rfl))⟩

/- ===== claim C6 ===== -/

/-- Margin recorded in the first-side list for one game result. -/
def marginForFirst (n1 : String) (r : SimResult) : Int :=
  if r.winner = n1 then r.margin else -r.margin

/-- Margin recorded in the second-side list for one game result. -/
def marginForSecond (n1 : String) (r : SimResult) : Int :=
  if r.winner = n1 then -r.margin else r.margin

/-- Number of results credited to the first side. -/
def firstWinCount (n1 : String) : List SimResult → Int
  | [] => 0
  | r :: rs => (if r.winner = n1 then 1 else 0) + firstWinCount n1 rs

/-- Number of results credited to the second side. -/
def secondWinCount (n1 : String) : List SimResult → Int
  | [] => 0
  | r :: rs => (if r.winner = n1 then 0 else 1) + secondWinCount n1 rs

/-- Characterization of the tabulation fold on an arbitrary accumulator. -/
theorem tabulate_foldl (n1 : String) :
    ∀ (rs : List SimResult) (w1 w2 : Int) (m1 m2 : List Int),
      List.foldl (tabulateStep n1) ((w1, w2), (m1, m2)) rs =
        ((w1 + firstWinCount n1 rs, w2 + secondWinCount n1 rs),
         (m1 ++ rs.map (marginForFirst n1), m2 ++ rs.map (marginForSecond n1))) := by
  intro rs
  induction rs with
  | nil =>
      intro w1 w2 m1 m2
      simp [firstWinCount, secondWinCount]
  | cons r rest ih =>
      intro w1 w2 m1 m2
      simp only [List.foldl_cons, List.map_cons]
      by_cases hw : r.winner = n1
      · simp only [tabulateStep, if_pos hw]
        rw [ih]
        simp only [firstWinCount, secondWinCount, marginForFirst,
          marginForSecond, if_pos hw, Prod.mk.injEq]
        refine ⟨⟨by ring, by ring⟩, by simp, by simp⟩
      · simp only [tabulateStep, if_neg hw]
        rw [ih]
        simp only [firstWinCount, secondWinCount, marginForFirst,
          marginForSecond, if_neg hw, Prod.mk.injEq]
        refine ⟨⟨by ring, by ring⟩, by simp, by simp⟩

/-- tabulate in closed form. -/
theorem tabulate_eq (n1 : String) (rs : List SimResult) :
    tabulate n1 rs =
      ((firstWinCount n1 rs, secondWinCount n1 rs),
       (rs.map (marginForFirst n1), rs.map (marginForSecond n1))) := by
  have h := tabulate_foldl n1 rs 0 0 [] []
  simpa [tabulate] using h

/-- The two side win counts always add up to the number of results. -/
theorem winCounts_sum (n1 : String) : ∀ rs : List SimResult,
    firstWinCount n1 rs + secondWinCount n1 rs = (rs.length : Int) := by
  intro rs
  induction rs with
  | nil => simp [firstWinCount, secondWinCount]
  | cons r rest ih =>
      by_cases hw : r.winner = n1 <;>
        simp [firstWinCount, secondWinCount, hw] <;> omega

/-- getD through map, below the length. -/
theorem getD_map_of_lt {α β : Type} (f : α → β) (d0 : α) (dv : β) :
    ∀ (l : List α) (i : Nat), i < l.length →
      (l.map f).getD i dv = f (l.getD i d0) := by
  intro l
  induction l with
  | nil => intro i hi; simp at hi
  | cons a t ih =>
      intro i hi
      cases i with
      | zero => simp
      | succ k =>
          simp only [List.map_cons, List.getD_cons_succ]
          exact ih k (by simpa using hi)

/-- runGamesLoop produces exactly the requested number of results. -/
theorem runGamesLoop_length (n1 : String) (d1 : Decide) (n2 : String)
    (d2 : Decide) (ws : Nat) (rolls : Nat → Nat) (fuel : Nat) :
    ∀ games idx results idx2,
      runGamesLoop n1 d1 n2 d2 ws rolls fuel games idx = some (results, idx2) →
      results.length = games := by
  intro games
  induction games with
  | zero =>
      intro idx results idx2 h
      simp only [runGamesLoop, Option.some.injEq, Prod.mk.injEq] at h
      obtain ⟨e1, e2⟩ := h
      subst e1
      rfl
  | succ g ih =>
      intro idx results idx2 h
      simp only [runGamesLoop] at h
      cases hs : runSimulation n1 d1 n2 d2 ws rolls fuel idx with
      | none => simp [hs] at h
      | some p =>
          obtain ⟨r, idxb⟩ := p
          simp only [hs] at h
          cases hrest : runGamesLoop n1 d1 n2 d2 ws rolls fuel g idxb with
          | none => simp [hrest] at h
          | some q =>
              obtain ⟨rest, idxc⟩ := q
              simp only [hrest, Option.some.injEq, Prod.mk.injEq] at h
              obtain ⟨e1, e2⟩ := h
              subst e1
              simp [ih idxb rest idxc hrest]

/-- C6: every batch produced by runSimulationBlock with games games has
win_count[0] + win_count[1] = games, both margin lists of length games, and
for every game exactly one side margin list received +margin (the winner
side) while the other received -margin for that game. -/
theorem C6_batch_win_margin_invariants (n1 n2 : String) (d1 d2 : Decide)
    (ws : Nat) (rolls : Nat → Nat) (fuel games idx : Nat)
    (batch : BatchResult) (idx2 : Nat)
    (h : runSimulationBlock n1 d1 n2 d2 ws rolls fuel games idx =
      some (batch, idx2)) :
    batch.win_count.1 + batch.win_count.2 = (games : Int) ∧
    batch.win_margins.1.length = games ∧
    batch.win_margins.2.length = games ∧
    ∃ results_list idx3,
      runGamesLoop n1 d1 n2 d2 ws rolls fuel games idx =
          some (results_list, idx3) ∧
      ∀ i, i < games →
        ((results_list.getD i ⟨"", 0⟩).winner = n1 ∧
            batch.win_margins.1.getD i 0 = (results_list.getD i ⟨"", 0⟩).margin ∧
            batch.win_margins.2.getD i 0 = -(results_list.getD i ⟨"", 0⟩).margin) ∨
        (¬ (results_list.getD i ⟨"", 0⟩).winner = n1 ∧
            batch.win_margins.1.getD i 0 = -(results_list.getD i ⟨"", 0⟩).margin ∧
            batch.win_margins.2.getD i 0 = (results_list.getD i ⟨"", 0⟩).margin) := by
  simp only [runSimulationBlock] at h
  cases hg : runGamesLoop n1 d1 n2 d2 ws rolls fuel games idx with
  | none => simp [hg] at h
  | some p =>
      obtain ⟨results_list, idx3⟩ := p
      have hL : results_list.length = games :=
        runGamesLoop_length n1 d1 n2 d2 ws rolls fuel games idx results_list idx3 hg
      simp only [hg, tabulate_eq, List.length_map] at h
      by_cases hg0 : results_list.length = 0
      · simp [hg0] at h
      · simp only [if_neg hg0, Option.some.injEq, Prod.mk.injEq] at h
        obtain ⟨e1, e2⟩ := h
        subst e1
        refine ⟨?_, ?_, ?_, results_list, idx3, rfl, ?_⟩
        · simpa [hL] using winCounts_sum n1 results_list
        · simp [hL]
        · simp [hL]
        · intro i hi
          have hiL : i < results_list.length := by omega
          have g1 := getD_map_of_lt (marginForFirst n1) (⟨"", 0⟩ : SimResult)
            (0 : Int) results_list i hiL
          have g2 := getD_map_of_lt (marginForSecond n1) (⟨"", 0⟩ : SimResult)
            (0 : Int) results_list i hiL
          by_cases hw : (results_list.getD i ⟨"", 0⟩).winner = n1
          · exact Or.inl ⟨hw, by simp only [g1, marginForFirst, if_pos hw],
              by simp only [g2, marginForSecond, if_pos hw]⟩
          · exact Or.inr ⟨hw, by simp only [g1, marginForFirst, if_neg hw],
              by simp only [g2, marginForSecond, if_neg hw]⟩

/-- The batch produced by the concrete run of the C6 witness. -/
def batchC6 : BatchResult :=
  { game_settings :=
      { game_count := 1, winning_score := 1, strategy_1 := "a", strategy_2 := "b" }
    win_count := (1, 0)
    win_margins := ([100], [-100])
    average_margins := ((100 : ℚ) / 1, (-100 : ℚ) / 1) }

/-- C6 witness: one concrete game (winning score 1, stream of 2s) gives a
batch whose win counts sum to the game count and whose margin lists pair up
as +margin for the winner side and -margin for the other. -/
theorem C6_batch_win_margin_invariants_witness :
    batchC6.win_count.1 + batchC6.win_count.2 = ((1 : Nat) : Int) ∧
    batchC6.win_margins.1.length = 1 ∧
    batchC6.win_margins.2.length = 1 ∧
    ∃ results_list idx3,
      runGamesLoop "a" (fun _ _ _ _ => true) "b" (fun _ _ _ _ => true) 1
          (fun _ => 2) 1 1 0 = some (results_list, idx3) ∧
      ∀ i, i < 1 →
        ((results_list.getD i ⟨"", 0⟩).winner = "a" ∧
            batchC6.win_margins.1.getD i 0 = (results_list.getD i ⟨"", 0⟩).margin ∧
            batchC6.win_margins.2.getD i 0 = -(results_list.getD i ⟨"", 0⟩).margin) ∨
        (¬ (results_list.getD i ⟨"", 0⟩).winner = "a" ∧
            batchC6.win_margins.1.getD i 0 = -(results_list.getD i ⟨"", 0⟩).margin ∧
            batchC6.win_margins.2.getD i 0 = (results_list.getD i ⟨"", 0⟩).margin) :=
  C6_batch_win_margin_invariants "a" "b" (fun _ _ _ _ => true)
    (fun _ _ _ _ => true) 1 (fun _ => 2) 1 1 0 batchC6 1 rfl
